import Mathlib

/-!
Shallow embedding of the humanitarian-deliveries dashboard (`src/log.py`).

The dashboard loads one table of delivery records from a wide-column store,
narrows it by three sidebar predicates (exact region, status membership,
exact week range), renders aggregate views over the narrowed table, surfaces
an exception table of low-utilisation / non-delivered rows, and offers the
narrowed table as a CSV download.

A pandas `DataFrame` is embedded as a `List Row`; a cell that pandas would
hold as `NaN`/missing is `none`.  Floating point columns are modelled over
`ℚ`; `NaN < 50` is `false` in pandas, which the `Option` encoding mirrors
(a missing value satisfies no comparison).  Pandas `unique` keeps the first
occurrence of each value in appearance order (`uniqueList` below), `groupby`
drops rows whose key is missing and sorts the group keys ascending, and
`Series.isin` treats a missing value as equal to a missing value in the
probe list, so an `Option`-level membership test is the faithful model.
-/

namespace Dash

/-- One record of the `humanitarian_deliveries` table, one field per column of
the projection query in `load_data`.  Missing cells are `none`. -/
structure Row where
  branch : Option String
  route : Option String
  delivery_id : Option String
  arrival_date : Option Nat
  beneficiaries_count : Option Int
  capacity_utilisation : Option ℚ
  cargo_subtype : Option String
  cargo_type : Option String
  created_date : Option Nat
  day_of_week : Option String
  distribution_center : Option String
  driver_name : Option String
  region : Option String
  released_tonnes : Option ℚ
  requested_tonnes : Option ℚ
  return_percentage : Option ℚ
  status : Option String
  urgency_level : Option String
  vehicle : Option String
  vehicle_load_tonnes : Option ℚ
  warehouse_release_time_hours : Option ℚ
  week_range : Option String
deriving DecidableEq

/-- The column names of the projection query, in query order. -/
def queryColumns : List String :=
  ["branch", "route", "delivery_id", "arrival_date", "beneficiaries_count",
   "capacity_utilisation", "cargo_subtype", "cargo_type", "created_date",
   "day_of_week", "distribution_center", "driver_name", "region",
   "released_tonnes", "requested_tonnes", "return_percentage",
   "status", "urgency_level", "vehicle", "vehicle_load_tonnes",
   "warehouse_release_time_hours", "week_range"]

/-- First-occurrence deduplication with an accumulator of already seen
values: the model of pandas `Series.unique`, which keeps the first
occurrence of each value in appearance order. -/
def uniqueAux [DecidableEq α] (seen : List α) : List α → List α
  | [] => []
  | a :: l => if a ∈ seen then uniqueAux seen l else a :: uniqueAux (a :: seen) l

/-- `pandas.Series.unique`: distinct values in first-appearance order. -/
def uniqueList [DecidableEq α] (l : List α) : List α :=
  uniqueAux [] l

/-- Byte-wise (code point) comparison of characters, as Python compares the
characters of two strings. -/
def charLe (a b : Char) : Bool :=
  a.toNat ≤ b.toNat

/-- Lexicographic comparison of character lists by code point: the order
Python's `sorted` uses on `str` values. -/
def lexLe : List Char → List Char → Bool
  | [], _ => true
  | _ :: _, [] => false
  | a :: as, b :: bs => if a = b then lexLe as bs else charLe a b

/-- Python's `<=` on strings, as a proposition. -/
def strLeR (a b : String) : Prop :=
  lexLe a.toList b.toList = true

instance : DecidableRel strLeR :=
  fun a b => by unfold strLeR; infer_instance

/-- Sort order pandas uses for a two-column group key: first key, then
second key. -/
def pairLeR (a b : String × String) : Prop :=
  if a.1 = b.1 then strLeR a.2 b.2 else strLeR a.1 b.1

instance : DecidableRel pairLeR :=
  fun a b => by unfold pairLeR; infer_instance

/-- `df["region"].dropna().unique()`: the region selector options. -/
def regions (df : List Row) : List String :=
  uniqueList (df.filterMap Row.region)

/-- `df["status"].unique()`: the status selector options.  `unique` is not
preceded by `dropna`, so a missing status appears as an option (`none`). -/
def statusOptions (df : List Row) : List (Option String) :=
  uniqueList (df.map Row.status)

/-- `sorted(df["week_range"].dropna().unique())`: the week selector options. -/
def weeks (df : List Row) : List String :=
  List.insertionSort strLeR (uniqueList (df.filterMap Row.week_range))

/-- The region a fresh session starts with: `st.selectbox` defaults to the
first option. -/
def defaultRegion (df : List Row) : Option String :=
  (regions df).head?

/-- The status selection a fresh session starts with:
`default=df["status"].unique()`, i.e. every option. -/
def defaultStatus (df : List Row) : List (Option String) :=
  statusOptions df

/-- The week range a fresh session starts with: `st.selectbox` defaults to
the first option of the sorted week list. -/
def defaultWeek (df : List Row) : Option String :=
  (weeks df).head?

/-- The filter stage:
`df[(df["region"] == r) & (df["status"].isin(s)) & (df["week_range"] == w)]`.
A missing region or week never equals the selected value; `isin` compares at
the `Option` level, so a missing status matches a missing entry of the
selection. -/
def filterTable (df : List Row) (selRegion : String) (selStatus : List (Option String))
    (selWeek : String) : List Row :=
  df.filter fun r =>
    decide (r.region = some selRegion ∧ r.status ∈ selStatus ∧ r.week_range = some selWeek)

/-- `len(filtered)`: the Deliveries metric. -/
def deliveriesCount (rows : List Row) : Nat :=
  rows.length

/-- `int(filtered["beneficiaries_count"].sum())`: pandas `sum` skips missing
values and returns `0` on an empty column. -/
def totalBeneficiaries (rows : List Row) : Int :=
  (rows.filterMap Row.beneficiaries_count).sum

/-- `Series.mean`: the mean of the non-missing values, `NaN` (here `none`)
when there are none. -/
def meanOpt (l : List ℚ) : Option ℚ :=
  if l = [] then none else some (l.sum / l.length)

/-- `filtered["capacity_utilisation"].mean()`. -/
def avgCapacityUtilisation (rows : List Row) : Option ℚ :=
  meanOpt (rows.filterMap Row.capacity_utilisation)

/-- `filtered["return_percentage"].mean()`. -/
def avgReturnPercentage (rows : List Row) : Option ℚ :=
  meanOpt (rows.filterMap Row.return_percentage)

/-- Round to the nearest integer, ties to even: the rounding `format` applies
to a float. -/
def roundHalfEven (x : ℚ) : Int :=
  let f : Int := x.floor
  let r : ℚ := x - f
  if r < 1 / 2 then f
  else if 1 / 2 < r then f + 1
  else if f % 2 = 0 then f else f + 1

/-- Python `f"{x:.1f}"` for a finite value: one decimal digit. -/
def fmt1 (x : ℚ) : String :=
  let n : Int := roundHalfEven (x * 10)
  let sign := if n < 0 then "-" else ""
  let m := n.natAbs
  sign ++ toString (m / 10) ++ "." ++ toString (m % 10)

/-- Python `f"{x:.1f}%"` where `x` came from `Series.mean`: a missing mean is
the float `nan`, which `format` renders as the text `nan`. -/
def fmtPct : Option ℚ → String
  | none => "nan%"
  | some v => fmt1 v ++ "%"

/-- The rendered Avg Capacity Utilisation metric. -/
def avgCapacityMetric (rows : List Row) : String :=
  fmtPct (avgCapacityUtilisation rows)

/-- The rendered Avg Return % metric. -/
def avgReturnMetric (rows : List Row) : String :=
  fmtPct (avgReturnPercentage rows)

/-- The number of rows whose (possibly missing) key equals `some k`. -/
def countRows [DecidableEq κ] (key : Row → Option κ) (rows : List Row) (k : κ) : Nat :=
  (rows.filter fun r => decide (key r = some k)).length

/-- `rows.groupby(key).size()`: pandas drops rows with a missing key and
lists the group keys in ascending order. -/
def groupSize [DecidableEq κ] (le : κ → κ → Prop) [DecidableRel le]
    (key : Row → Option κ) (rows : List Row) : List (κ × Nat) :=
  (List.insertionSort le (uniqueList (rows.filterMap key))).map
    fun k => (k, countRows key rows k)

/-- `filtered.groupby("branch").size()`: the Trips per Branch view. -/
def tripsPerBranch (rows : List Row) : List (String × Nat) :=
  groupSize strLeR Row.branch rows

/-- The two-column key of `groupby(["branch", "status"])`: missing in either
column drops the row. -/
def branchStatusKey (r : Row) : Option (String × String) :=
  r.branch.bind fun b => r.status.map fun s => (b, s)

/-- `filtered.groupby(["branch", "status"]).size()`. -/
def statusPerBranch (rows : List Row) : List ((String × String) × Nat) :=
  groupSize pairLeR branchStatusKey rows

/-- `filtered.groupby("arrival_date").size()`, computed only when the
filtered table is nonempty (`if not filtered.empty`). -/
def timeSeries (rows : List Row) : List (Nat × Nat) :=
  if rows = [] then [] else groupSize (· ≤ ·) Row.arrival_date rows

/-- `filtered.groupby("week_range").size()`. -/
def deliveriesByWeek (rows : List Row) : List (String × Nat) :=
  groupSize strLeR Row.week_range rows

/-- `filtered.groupby("branch")["capacity_utilisation"].mean()`. -/
def avgCapacityPerBranch (rows : List Row) : List (String × Option ℚ) :=
  (List.insertionSort strLeR (uniqueList (rows.filterMap Row.branch))).map
    fun b =>
      (b, meanOpt ((rows.filter fun r => decide (r.branch = some b)).filterMap
        Row.capacity_utilisation))

/-- `Series.value_counts`: distinct non-missing values with their counts,
most frequent first. -/
def valueCounts [DecidableEq κ] (key : Row → Option κ) (rows : List Row) : List (κ × Nat) :=
  (List.insertionSort (fun a b => countRows key rows b ≤ countRows key rows a)
    (uniqueList (rows.filterMap key))).map
    fun k => (k, countRows key rows k)

/-- `filtered["vehicle"].value_counts()`. -/
def tripsPerVehicle (rows : List Row) : List (String × Nat) :=
  valueCounts Row.vehicle rows

/-- `filtered["urgency_level"].value_counts()`. -/
def urgencyDistribution (rows : List Row) : List (String × Nat) :=
  valueCounts Row.urgency_level rows

/-- The values the vehicle-load histogram bins: the non-missing entries of
`filtered["vehicle_load_tonnes"]`. -/
def vehicleLoadValues (rows : List Row) : List ℚ :=
  rows.filterMap Row.vehicle_load_tonnes

/-- The two-column key of `groupby(["cargo_type", "region"])`. -/
def cargoRegionKey (r : Row) : Option (String × String) :=
  r.cargo_type.bind fun t => r.region.map fun g => (t, g)

/-- `filtered.groupby(["cargo_type", "region"]).size()`. -/
def cargoTypeByRegion (rows : List Row) : List ((String × String) × Nat) :=
  groupSize pairLeR cargoRegionKey rows

/-- The two-column key of `groupby(["branch", "cargo_type"])`. -/
def branchCargoKey (r : Row) : Option (String × String) :=
  r.branch.bind fun b => r.cargo_type.map fun t => (b, t)

/-- `filtered.groupby(["branch", "cargo_type"]).size()`. -/
def cargoTypeByBranch (rows : List Row) : List ((String × String) × Nat) :=
  groupSize pairLeR branchCargoKey rows

/-- The two-column key of `groupby(["branch", "cargo_subtype"])`. -/
def branchSubcargoKey (r : Row) : Option (String × String) :=
  r.branch.bind fun b => r.cargo_subtype.map fun t => (b, t)

/-- `filtered.groupby(["branch", "cargo_subtype"]).size()`. -/
def cargoSubtypeByBranch (rows : List Row) : List ((String × String) × Nat) :=
  groupSize pairLeR branchSubcargoKey rows

/-- `filtered["capacity_utilisation"] < 50` at one row: a missing value
satisfies no comparison, exactly as `NaN < 50` is false. -/
def capBelow50 (r : Row) : Bool :=
  match r.capacity_utilisation with
  | some c => decide (c < 50)
  | none => false

/-- The exception table:
`filtered[(filtered["capacity_utilisation"] < 50) | (filtered["status"] != "Delivered")]`. -/
def lowCapacity (rows : List Row) : List Row :=
  rows.filter fun r => capBelow50 r || decide (r.status ≠ some "Delivered")

end Dash

namespace Dash

/-! ### CSV export (`filtered.to_csv(index=False)` and its re-parse)

`to_csv` writes the header row then one line per data row, each line ending
in a newline, fields separated by commas and quoted minimally: a field is
wrapped in double quotes, its quotes doubled, exactly when it contains a
comma, a quote, or a line break.  The serializer and the parser below work
on `List Char`; a table is a list of records, a record a list of fields. -/

/-- Does the field need quoting under minimal quoting? -/
def needsQuote (s : List Char) : Bool :=
  s.any fun c => c = ',' || c = '"' || c = '\n' || c = '\r'

/-- Double every quote of a field body. -/
def escapeQuotes : List Char → List Char
  | [] => []
  | c :: rest =>
    if c = '"' then '"' :: '"' :: escapeQuotes rest else c :: escapeQuotes rest

/-- Serialize one field with minimal quoting. -/
def encodeField (s : List Char) : List Char :=
  if needsQuote s then '"' :: (escapeQuotes s ++ ['"']) else s

/-- Serialize one record: fields joined by commas. -/
def encodeRecord : List (List Char) → List Char
  | [] => []
  | f :: rest =>
    match rest with
    | [] => encodeField f
    | _ :: _ => encodeField f ++ ',' :: encodeRecord rest

/-- Serialize a table: every record on its own newline-terminated line. -/
def encodeTable : List (List (List Char)) → List Char
  | [] => []
  | r :: rest => encodeRecord r ++ '\n' :: encodeTable rest

/-- Parse an unquoted field: everything up to the next comma or newline.
Returns the field and the unconsumed input. -/
def parseUnq : List Char → List Char × List Char
  | [] => ([], [])
  | c :: rest =>
    if c = ',' ∨ c = '\n' then ([], c :: rest)
    else
      let p := parseUnq rest
      (c :: p.1, p.2)

/-- Parse the body of a quoted field, the opening quote already consumed:
a doubled quote is a literal quote, a lone quote closes the field. -/
def parseQ : List Char → Option (List Char × List Char)
  | [] => none
  | c :: rest =>
    if c = '"' then
      match rest with
      | [] => some ([], [])
      | d :: rest2 =>
        if d = '"' then (parseQ rest2).map fun p => ('"' :: p.1, p.2)
        else some ([], d :: rest2)
    else (parseQ rest).map fun p => (c :: p.1, p.2)

/-- Parse one field, quoted or not. -/
def parseField (l : List Char) : Option (List Char × List Char) :=
  match l with
  | [] => some ([], [])
  | c :: rest => if c = '"' then parseQ rest else some (parseUnq (c :: rest))

/-- Parse one record: comma-separated fields up to a newline or the end of
input.  The fuel bounds the number of fields. -/
def parseRecord : Nat → List Char → Option (List (List Char) × List Char)
  | 0, _ => none
  | fuel + 1, l =>
    match parseField l with
    | none => none
    | some (f, r) =>
      match r with
      | [] => some ([f], [])
      | c :: r2 =>
        if c = ',' then (parseRecord fuel r2).map fun p => (f :: p.1, p.2)
        else if c = '\n' then some ([f], r2)
        else none

/-- Parse a table: newline-terminated records until the input is exhausted.
The fuel bounds the number of records. -/
def parseTableFuel : Nat → List Char → Option (List (List (List Char)))
  | 0, l => if l = [] then some [] else none
  | fuel + 1, l =>
    if l = [] then some []
    else
      match parseRecord (l.length + 1) l with
      | none => none
      | some (rec, rest) => (parseTableFuel fuel rest).map fun t => rec :: t

/-- Parse a CSV text into a table of fields. -/
def parseCsv (l : List Char) : Option (List (List (List Char))) :=
  parseTableFuel (l.length + 1) l

/-- Stringify an optional text cell: pandas writes a missing value as the
empty field. -/
def optStr : Option String → String
  | none => ""
  | some s => s

/-- Stringify an optional numeric cell. -/
def qCell : Option ℚ → String
  | none => ""
  | some v => toString v

/-- Stringify an optional integer cell. -/
def intCell : Option Int → String
  | none => ""
  | some n => toString n

/-- Stringify an optional date cell. -/
def dateCell : Option Nat → String
  | none => ""
  | some d => toString d

/-- The cell texts of one row, in the column order of the projection query,
as `to_csv` writes them. -/
def rowCells (r : Row) : List String :=
  [optStr r.branch, optStr r.route, optStr r.delivery_id, dateCell r.arrival_date,
   intCell r.beneficiaries_count, qCell r.capacity_utilisation, optStr r.cargo_subtype,
   optStr r.cargo_type, dateCell r.created_date, optStr r.day_of_week,
   optStr r.distribution_center, optStr r.driver_name, optStr r.region,
   qCell r.released_tonnes, qCell r.requested_tonnes, qCell r.return_percentage,
   optStr r.status, optStr r.urgency_level, optStr r.vehicle,
   qCell r.vehicle_load_tonnes, qCell r.warehouse_release_time_hours,
   optStr r.week_range]

/-- The filtered table as a list of textual records, header first:
what `filtered.to_csv(index=False)` serializes. -/
def csvTable (rows : List Row) : List (List (List Char)) :=
  (queryColumns.map String.toList) :: rows.map fun r => (rowCells r).map String.toList

/-- `filtered.to_csv(index=False)` as character data. -/
def exportCsv (rows : List Row) : List Char :=
  encodeTable (csvTable rows)

/-- The fixed download file name passed to `st.download_button`. -/
def exportFileName : String :=
  "deliveries_filtered.csv"

/-- The fixed content type passed to `st.download_button`. -/
def exportMime : String :=
  "text/csv"

/-- A row with every cell missing; concrete examples override the fields
they need. -/
def blankRow : Row :=
  ⟨none, none, none, none, none, none, none, none, none, none, none,
   none, none, none, none, none, none, none, none, none, none, none⟩

/-- A delivered row in region North, week W1, with no branch recorded. -/
def rowNoBranch : Row :=
  { blankRow with region := some "North", status := some "Delivered",
                  week_range := some "W1" }

/-- Scenario rows for the time-series view: two deliveries on 2024-01-01 and
one on 2024-01-03, dates encoded as `yyyymmdd` numbers. -/
def scenarioRows : List Row :=
  [{ blankRow with arrival_date := some 20240101 },
   { blankRow with arrival_date := some 20240101 },
   { blankRow with arrival_date := some 20240103 }]

/-- A pending (not delivered) row with no capacity reading. -/
def rowPending : Row :=
  { blankRow with region := some "North", status := some "Pending",
                  week_range := some "W1" }

/-- A delivered row of branch A in region North, week W1. -/
def rowBranchA : Row :=
  { blankRow with branch := some "A", region := some "North",
                  status := some "Delivered", week_range := some "W1" }

/-- A row whose status cell is missing, in region North, week W1. -/
def rowNullStatus : Row :=
  { blankRow with region := some "North", week_range := some "W1" }

/-- Two rows carrying week ranges W2 and W1, in that appearance order. -/
def dfWeeks : List Row :=
  [{ blankRow with week_range := some "W2" },
   { blankRow with week_range := some "W1" }]

end Dash

namespace Dash

/-! ### Helper lemmas: first-occurrence deduplication -/

theorem mem_uniqueAux [DecidableEq α] (seen : List α) (l : List α) (x : α) :
    x ∈ uniqueAux seen l ↔ x ∈ l ∧ x ∉ seen := by
  induction l generalizing seen with
  | nil => simp [uniqueAux]
  | cons a l ih =>
    by_cases ha : a ∈ seen
    · rw [uniqueAux, if_pos ha, ih]
      constructor
      · rintro ⟨hl, hs⟩
        exact ⟨List.mem_cons_of_mem _ hl, hs⟩
      · rintro ⟨hx, hs⟩
        rcases List.mem_cons.1 hx with rfl | hl
        · exact absurd ha hs
        · exact ⟨hl, hs⟩
    · rw [uniqueAux, if_neg ha]
      constructor
      · intro hx
        rcases List.mem_cons.1 hx with rfl | hl
        · exact ⟨List.mem_cons_self _ _, ha⟩
        · rcases (ih (a :: seen)).1 hl with ⟨h1, h2⟩
          refine ⟨List.mem_cons_of_mem _ h1, fun hs => h2 (List.mem_cons_of_mem _ hs)⟩
      · rintro ⟨hx, hs⟩
        by_cases hxa : x = a
        · exact hxa ▸ List.mem_cons_self _ _
        · rcases List.mem_cons.1 hx with rfl | hl
          · exact absurd rfl hxa
          · refine List.mem_cons_of_mem _ ((ih (a :: seen)).2 ⟨hl, ?_⟩)
            intro hmem
            rcases List.mem_cons.1 hmem with rfl | h
            · exact hxa rfl
            · exact hs h

theorem mem_uniqueList [DecidableEq α] (l : List α) (x : α) :
    x ∈ uniqueList l ↔ x ∈ l := by
  simp [uniqueList, mem_uniqueAux]

theorem nodup_uniqueAux [DecidableEq α] (seen : List α) (l : List α) :
    (uniqueAux seen l).Nodup := by
  induction l generalizing seen with
  | nil => exact List.nodup_nil
  | cons a l ih =>
    by_cases ha : a ∈ seen
    · rw [uniqueAux, if_pos ha]
      exact ih seen
    · rw [uniqueAux, if_neg ha]
      refine List.nodup_cons.2 ⟨?_, ih (a :: seen)⟩
      intro hmem
      exact ((mem_uniqueAux _ _ _).1 hmem).2 (List.mem_cons_self _ _)

theorem nodup_uniqueList [DecidableEq α] (l : List α) : (uniqueList l).Nodup :=
  nodup_uniqueAux [] l

theorem head?_uniqueList [DecidableEq α] (l : List α) :
    (uniqueList l).head? = l.head? := by
  cases l with
  | nil => rfl
  | cons a l => simp [uniqueList, uniqueAux]

theorem uniqueList_perm_dedup [DecidableEq α] (l : List α) :
    List.Perm (uniqueList l) l.dedup := by
  rw [List.perm_ext_iff_of_nodup (nodup_uniqueList l) l.nodup_dedup]
  intro a
  simp [mem_uniqueList, List.mem_dedup]

/-! ### Helper lemmas: the Python string order -/

theorem lexLe_refl (l : List Char) : lexLe l l = true := by
  induction l with
  | nil => rfl
  | cons a l ih => simp [lexLe, ih]

theorem strLeR_refl (s : String) : strLeR s s :=
  lexLe_refl _

theorem lexLe_total (a b : List Char) : lexLe a b = true ∨ lexLe b a = true := by
  induction a generalizing b with
  | nil => exact Or.inl rfl
  | cons x as ih =>
    cases b with
    | nil => exact Or.inr rfl
    | cons y bs =>
      by_cases h : x = y
      · subst h
        simpa [lexLe] using ih bs
      · have h' : y ≠ x := fun e => h e.symm
        simpa [lexLe, h, h', charLe] using Nat.le_total x.toNat y.toNat

theorem charToNat_inj {a b : Char} (h : a.toNat = b.toNat) : a = b := by
  apply Char.ext
  apply UInt32.ext  -- hope this exists
  exact h

theorem lexLe_trans {a b c : List Char} (hab : lexLe a b = true)
    (hbc : lexLe b c = true) : lexLe a c = true := by
  induction a generalizing b c with
  | nil => rfl
  | cons x as ih =>
    cases b with
    | nil => simp [lexLe] at hab
    | cons y bs =>
      cases c with
      | nil => simp [lexLe] at hbc
      | cons z cs =>
        by_cases hxy : x = y
        · subst hxy
          by_cases hxz : x = z
          · subst hxz
            simp only [lexLe, if_pos rfl] at hab hbc ⊢
            exact ih hab hbc
          · simp only [lexLe, if_pos rfl] at hab
            simp only [lexLe, if_neg hxz] at hbc ⊢
            exact hbc
        · by_cases hyz : y = z
          · subst hyz
            simp only [lexLe, if_neg hxy] at hab ⊢
            exact hab
          · have hxyN : x.toNat ≠ y.toNat := fun e => hxy (charToNat_inj e)
            have hyzN : y.toNat ≠ z.toNat := fun e => hyz (charToNat_inj e)
            simp only [lexLe, if_neg hxy, charLe, decide_eq_true_eq] at hab
            simp only [lexLe, if_neg hyz, charLe, decide_eq_true_eq] at hbc
            have hlt : x.toNat < z.toNat :=
              lt_of_lt_of_le (lt_of_le_of_ne hab hxyN) hbc
            have hxz : x ≠ z := by
              intro e
              exact absurd (e ▸ rfl) (Nat.ne_of_lt hlt)
            simp only [lexLe, if_neg hxz, charLe, decide_eq_true_eq]
            exact le_of_lt hlt

instance : IsTotal String strLeR :=
  ⟨fun a b => lexLe_total a.toList b.toList⟩

instance : IsTrans String strLeR :=
  ⟨fun _ _ _ => lexLe_trans⟩

instance : IsRefl String strLeR :=
  ⟨strLeR_refl⟩

end Dash

namespace Dash

/-! ### Helper lemmas: group sizes and counting -/

theorem countRows_eq_keys_count [DecidableEq κ] (key : Row → Option κ)
    (rows : List Row) (k : κ) :
    countRows key rows k
      = ((rows.filterMap key).filter fun a => decide (a = k)).length := by
  induction rows with
  | nil => rfl
  | cons r rs ih =>
    cases h : key r with
    | none =>
      simp only [countRows, List.filter_cons, List.filterMap_cons, h] at ih ⊢
      simpa using ih
    | some a =>
      by_cases hak : a = k
      · subst hak
        simp only [countRows, List.filter_cons, List.filterMap_cons, h] at ih ⊢
        simpa using ih
      · simp only [countRows, List.filter_cons, List.filterMap_cons, h] at ih ⊢
        simpa [hak] using ih

theorem length_filterMap_key [DecidableEq κ] (key : Row → Option κ) (rows : List Row) :
    (rows.filterMap key).length
      = (rows.filter fun r => decide (key r ≠ none)).length := by
  induction rows with
  | nil => rfl
  | cons r rs ih =>
    cases h : key r with
    | none => simpa [List.filterMap_cons, List.filter_cons, h] using ih
    | some a => simpa [List.filterMap_cons, List.filter_cons, h] using ih

theorem count_eq_filter_length [DecidableEq κ] (l : List κ) (k : κ) :
    (l.filter fun a => decide (a = k)).length = l.count k := by
  induction l with
  | nil => rfl
  | cons a l ih =>
    by_cases h : a = k
    · subst h
      simp [List.filter_cons, List.count_cons, ih]
    · simp [List.filter_cons, List.count_cons, h, Ne.symm h, ih]

theorem groupSize_snd_sum [DecidableEq κ] (le : κ → κ → Prop) [DecidableRel le]
    (key : Row → Option κ) (rows : List Row) :
    ((groupSize le key rows).map Prod.snd).sum
      = (rows.filter fun r => decide (key r ≠ none)).length := by
  unfold groupSize
  rw [List.map_map]
  have hfun :
      (Prod.snd ∘ fun k => (k, countRows key rows k))
        = fun k => (rows.filterMap key).count k := by
    funext k
    simp [Function.comp, countRows_eq_keys_count, count_eq_filter_length]
  rw [hfun]
  have hperm :
      List.Perm
        (List.insertionSort le (uniqueList (rows.filterMap key)))
        ((rows.filterMap key).dedup) :=
    (List.perm_insertionSort le _).trans (uniqueList_perm_dedup _)
  rw [(hperm.map fun k => (rows.filterMap key).count k).sum_eq]
  rw [List.sum_map_count_dedup_eq_length]
  exact length_filterMap_key key rows

theorem mem_groupSize [DecidableEq κ] (le : κ → κ → Prop) [DecidableRel le]
    (key : Row → Option κ) (rows : List Row) (k : κ) (c : Nat) :
    (k, c) ∈ groupSize le key rows
      ↔ (∃ r ∈ rows, key r = some k) ∧ c = countRows key rows k := by
  unfold groupSize
  rw [List.mem_map]
  constructor
  · rintro ⟨x, hx, hpair⟩
    have hk : x = k := congrArg Prod.fst hpair
    subst hk
    have hc : c = countRows key rows x := (congrArg Prod.snd hpair).symm
    have hmem : x ∈ rows.filterMap key :=
      (mem_uniqueList _ _).1 ((List.perm_insertionSort le _).mem_iff.1 hx)
    exact ⟨List.mem_filterMap.1 hmem, hc⟩
  · rintro ⟨hex, rfl⟩
    refine ⟨k, ?_, rfl⟩
    exact (List.perm_insertionSort le _).mem_iff.2
      ((mem_uniqueList _ _).2 (List.mem_filterMap.2 hex))

theorem pairwise_lt_of_le_nodup {l : List Nat} (hs : l.Pairwise (· ≤ ·))
    (hn : l.Nodup) : l.Pairwise (· < ·) := by
  induction l with
  | nil => exact List.Pairwise.nil
  | cons a l ih =>
    rcases List.pairwise_cons.1 hs with ⟨ha, hs'⟩
    rcases List.nodup_cons.1 hn with ⟨hna, hn'⟩
    refine List.pairwise_cons.2 ⟨?_, ih hs' hn'⟩
    intro b hb
    exact lt_of_le_of_ne (ha b hb) fun e => hna (e ▸ hb)

theorem groupSize_fst_chain_lt (key : Row → Option Nat) (rows : List Row) :
    ((groupSize (· ≤ ·) key rows).map Prod.fst).Chain' (· < ·) := by
  unfold groupSize
  rw [List.map_map]
  have hfun : (Prod.fst ∘ fun k => (k, countRows key rows k)) = id := by
    funext k; rfl
  rw [hfun, List.map_id]
  apply List.Pairwise.chain'
  apply pairwise_lt_of_le_nodup
  · exact List.sorted_insertionSort _ _
  · exact ((List.perm_insertionSort _ _).nodup_iff).2 (nodup_uniqueList _)

end Dash

namespace Dash

/-! ### Claim theorems -/

/-- C1: for every loaded table and filter selection, the filtered table
holds exactly the loaded rows whose region equals the selected region, whose
status is a member of the selected status set, and whose week range equals
the selected week range — all three conjunctively, with no false positives
or negatives. -/
theorem claim_C1_filter_exact (df : List Row) (selRegion : String)
    (selStatus : List (Option String)) (selWeek : String) (r : Row) :
    r ∈ filterTable df selRegion selStatus selWeek
      ↔ r ∈ df ∧ r.region = some selRegion ∧ r.status ∈ selStatus
          ∧ r.week_range = some selWeek := by
  simp [filterTable, List.mem_filter]

/-- Missing capacity utilisation satisfies no comparison; a present value is
below the threshold exactly when it is less than 50. -/
theorem capBelow50_iff (r : Row) :
    capBelow50 r = true ↔ ∃ c, r.capacity_utilisation = some c ∧ c < 50 := by
  cases h : r.capacity_utilisation with
  | none => simp [capBelow50, h]
  | some c => simp [capBelow50, h]

/-- C2: a row is in the exception table iff it is a filtered row with
capacity utilisation below 50 or a status other than exactly "Delivered"
(inclusive or); consequently no returned row has both capacity at least 50
and status "Delivered". -/
theorem claim_C2_exception_table (flt : List Row) (r : Row) :
    (r ∈ lowCapacity flt
        ↔ r ∈ flt ∧ ((∃ c, r.capacity_utilisation = some c ∧ c < 50)
            ∨ r.status ≠ some "Delivered"))
      ∧ (r ∈ lowCapacity flt
          → ¬ ((∃ c, r.capacity_utilisation = some c ∧ 50 ≤ c)
                ∧ r.status = some "Delivered")) := by
  have hiff : r ∈ lowCapacity flt
      ↔ r ∈ flt ∧ ((∃ c, r.capacity_utilisation = some c ∧ c < 50)
          ∨ r.status ≠ some "Delivered") := by
    rw [lowCapacity, List.mem_filter]
    simp [capBelow50_iff]
  refine ⟨hiff, fun hmem => ?_⟩
  rintro ⟨⟨c, hc, hc50⟩, hstat⟩
  rcases (hiff.1 hmem).2 with ⟨c', hc', hlt⟩ | hne
  · rw [hc] at hc'
    injection hc' with e
    exact absurd hlt (not_lt.2 (e ▸ hc50))
  · exact hne hstat

/-- Witness for C2 at a concrete pending row. -/
theorem claim_C2_witness :
    rowPending ∈ lowCapacity [rowPending]
      ∧ ¬ ((∃ c, rowPending.capacity_utilisation = some c ∧ 50 ≤ c)
            ∧ rowPending.status = some "Delivered") := by
  have hmem : rowPending ∈ lowCapacity [rowPending] := by decide
  exact ⟨hmem, (claim_C2_exception_table [rowPending] rowPending).2 hmem⟩

/-- C3 fails on the code: on an empty filtered table both mean metrics are
rendered as the text "nan%" — a formatted NaN placeholder — and not as
"no data". -/
theorem claim_C3_counterexample :
    avgCapacityMetric (filterTable [] "North" [] "W1") = "nan%"
      ∧ avgReturnMetric (filterTable [] "North" [] "W1") = "nan%"
      ∧ avgCapacityMetric (filterTable [] "North" [] "W1") ≠ "no data"
      ∧ avgReturnMetric (filterTable [] "North" [] "W1") ≠ "no data" := by
  refine ⟨rfl, rfl, ?_, ?_⟩ <;> decide

/-- C3 (amended): over a filtered table with no observed capacity
utilisation (in particular an empty one) the capacity metric renders as the
text "nan%" rather than raising, and likewise the return metric when no
return percentage is observed. -/
theorem claim_C3_empty_mean_renders_nan (rows : List Row)
    (hcap : ∀ r ∈ rows, r.capacity_utilisation = none)
    (hret : ∀ r ∈ rows, r.return_percentage = none) :
    avgCapacityMetric rows = "nan%" ∧ avgReturnMetric rows = "nan%" := by
  have h1 : rows.filterMap Row.capacity_utilisation = [] := by
    simp only [List.filterMap_eq_nil_iff]
    exact hcap
  have h2 : rows.filterMap Row.return_percentage = [] := by
    simp only [List.filterMap_eq_nil_iff]
    exact hret
  constructor
  · simp [avgCapacityMetric, avgCapacityUtilisation, meanOpt, h1, fmtPct]
  · simp [avgReturnMetric, avgReturnPercentage, meanOpt, h2, fmtPct]

/-- Witness for the amended C3 at a concrete one-row table with missing
numeric cells. -/
theorem claim_C3_witness :
    avgCapacityMetric [blankRow] = "nan%" ∧ avgReturnMetric [blankRow] = "nan%" :=
  claim_C3_empty_mean_renders_nan [blankRow] (by decide) (by decide)

/-- C7: an empty status selection filters out every row, whatever the region
and week selections are. -/
theorem claim_C7_empty_status_selection (df : List Row) (selRegion selWeek : String) :
    filterTable df selRegion [] selWeek = [] := by
  simp [filterTable]

end Dash

namespace Dash

/-- C5 fails on the code: a filtered row whose branch cell is missing is
dropped by the group-by, so the per-branch trip counts sum to 0 while the
filtered table holds one row. -/
theorem claim_C5_counterexample :
    ((tripsPerBranch (filterTable [rowNoBranch] "North" [some "Delivered"] "W1")).map
        Prod.snd).sum
      ≠ deliveriesCount (filterTable [rowNoBranch] "North" [some "Delivered"] "W1") := by
  decide

/-- C5 (amended): for every filter selection the per-branch trip counts sum
to the number of filtered rows with a non-missing branch; whenever every
filtered row carries a branch this equals the total filtered row count. -/
theorem claim_C5_branch_sum (df : List Row) (sr : String)
    (ss : List (Option String)) (sw : String) :
    ((tripsPerBranch (filterTable df sr ss sw)).map Prod.snd).sum
        = ((filterTable df sr ss sw).filter fun r => decide (r.branch ≠ none)).length
      ∧ ((∀ r ∈ filterTable df sr ss sw, r.branch ≠ none)
          → ((tripsPerBranch (filterTable df sr ss sw)).map Prod.snd).sum
              = deliveriesCount (filterTable df sr ss sw)) := by
  have h1 := groupSize_snd_sum strLeR Row.branch (filterTable df sr ss sw)
  refine ⟨h1, fun hall => ?_⟩
  rw [tripsPerBranch, h1, deliveriesCount]
  rw [List.filter_eq_self.2]
  intro r hr
  simpa using hall r hr

/-- Witness for the amended C5 at a one-row table whose row has a branch. -/
theorem claim_C5_witness :
    ((tripsPerBranch (filterTable [rowBranchA] "North" [some "Delivered"] "W1")).map
        Prod.snd).sum
      = deliveriesCount (filterTable [rowBranchA] "North" [some "Delivered"] "W1") :=
  (claim_C5_branch_sum [rowBranchA] "North" [some "Delivered"] "W1").2 (by decide)

/-- C6: the deliveries-over-time view groups the filtered rows by arrival
date, counts the rows per date, lists its points in strictly ascending date
order, and on rows with dates [2024-01-01, 2024-01-01, 2024-01-03] produces
exactly (2024-01-01, 2) then (2024-01-03, 1). -/
theorem claim_C6_time_series :
    (∀ rows : List Row, ((timeSeries rows).map Prod.fst).Chain' (· < ·))
      ∧ (∀ (rows : List Row) (d c : Nat),
          (d, c) ∈ timeSeries rows
            ↔ (∃ r ∈ rows, r.arrival_date = some d)
                ∧ c = countRows Row.arrival_date rows d)
      ∧ timeSeries scenarioRows = [(20240101, 2), (20240103, 1)] := by
  refine ⟨?_, ?_, ?_⟩
  · intro rows
    by_cases h : rows = []
    · subst h
      simp [timeSeries]
    · rw [timeSeries, if_neg h]
      exact groupSize_fst_chain_lt _ _
  · intro rows d c
    by_cases h : rows = []
    · subst h
      simp [timeSeries]
    · rw [timeSeries, if_neg h]
      exact mem_groupSize _ _ _ _ _
  · decide

/-- C8: when the filtered table is empty every downstream aggregation
degrades instead of erroring: the deliveries count is 0, the beneficiary sum
is 0, every grouped view is an empty table, the exception table is empty,
and the mean metrics render as formatted NaN text. -/
theorem claim_C8_empty_filtered_degrades (df : List Row) (sr : String)
    (ss : List (Option String)) (sw : String)
    (h : filterTable df sr ss sw = []) :
    deliveriesCount (filterTable df sr ss sw) = 0
      ∧ totalBeneficiaries (filterTable df sr ss sw) = 0
      ∧ tripsPerBranch (filterTable df sr ss sw) = []
      ∧ statusPerBranch (filterTable df sr ss sw) = []
      ∧ timeSeries (filterTable df sr ss sw) = []
      ∧ deliveriesByWeek (filterTable df sr ss sw) = []
      ∧ avgCapacityPerBranch (filterTable df sr ss sw) = []
      ∧ tripsPerVehicle (filterTable df sr ss sw) = []
      ∧ vehicleLoadValues (filterTable df sr ss sw) = []
      ∧ urgencyDistribution (filterTable df sr ss sw) = []
      ∧ cargoTypeByRegion (filterTable df sr ss sw) = []
      ∧ cargoTypeByBranch (filterTable df sr ss sw) = []
      ∧ cargoSubtypeByBranch (filterTable df sr ss sw) = []
      ∧ lowCapacity (filterTable df sr ss sw) = []
      ∧ avgCapacityMetric (filterTable df sr ss sw) = "nan%"
      ∧ avgReturnMetric (filterTable df sr ss sw) = "nan%" := by
  rw [h]
  decide

/-- Witness for C8: the empty table filtered by any selection is empty. -/
theorem claim_C8_witness :
    deliveriesCount (filterTable [] "North" [] "W1") = 0
      ∧ totalBeneficiaries (filterTable [] "North" [] "W1") = 0 :=
  ⟨(claim_C8_empty_filtered_degrades [] "North" [] "W1" rfl).1,
   (claim_C8_empty_filtered_degrades [] "North" [] "W1" rfl).2.1⟩

/-- C9: the default selections are functions of the distinct observed
values: the status default is exactly the observed status values, the region
default is the first available (first-appearing non-missing) region, and the
week default is the first available week option — the least observed week in
the sorted option list. -/
theorem claim_C9_defaults (df : List Row) :
    (∀ s, s ∈ defaultStatus df ↔ s ∈ df.map Row.status)
      ∧ defaultRegion df = (df.filterMap Row.region).head?
      ∧ (∀ w, (∃ r ∈ df, r.week_range = some w)
          → ∃ w0, defaultWeek df = some w0 ∧ strLeR w0 w
              ∧ ∃ r ∈ df, r.week_range = some w0) := by
  refine ⟨?_, ?_, ?_⟩
  · intro s
    simp [defaultStatus, statusOptions, mem_uniqueList]
  · simp [defaultRegion, regions, head?_uniqueList]
  · intro w hw
    have hwmem : w ∈ weeks df := by
      rw [weeks]
      exact (List.perm_insertionSort _ _).mem_iff.2
        ((mem_uniqueList _ _).2 (List.mem_filterMap.2 hw))
    cases hws : weeks df with
    | nil =>
      rw [hws] at hwmem
      cases hwmem
    | cons w0 rest =>
      refine ⟨w0, ?_, ?_, ?_⟩
      · simp [defaultWeek, hws]
      · have hsorted : (weeks df).Sorted strLeR := List.sorted_insertionSort strLeR _
        rw [hws] at hsorted hwmem
        rcases List.mem_cons.1 hwmem with rfl | hr
        · exact strLeR_refl w
        · exact (List.sorted_cons.1 hsorted).1 w hr
      · have hw0 : w0 ∈ weeks df := by
          rw [hws]
          exact List.mem_cons_self _ _
        rw [weeks] at hw0
        exact List.mem_filterMap.1
          ((mem_uniqueList _ _).1 ((List.perm_insertionSort _ _).mem_iff.1 hw0))

/-- Witness for C9 on a table observing weeks W2 then W1. -/
theorem claim_C9_witness :
    ∃ w0, defaultWeek dfWeeks = some w0 ∧ strLeR w0 "W2"
      ∧ ∃ r ∈ dfWeeks, r.week_range = some w0 :=
  (claim_C9_defaults dfWeeks).2.2 "W2" (by decide)

/-- C10: region and week options are the distinct non-missing values of
their columns (weeks sorted ascending), while status options are the raw
distinct values including a missing one; hence no filtered row has a missing
region or week range, but a row with a missing status is selectable and
passes the filter. -/
theorem claim_C10_selector_options (df : List Row) :
    (∀ x, x ∈ regions df ↔ ∃ r ∈ df, r.region = some x)
      ∧ (∀ w, w ∈ weeks df ↔ ∃ r ∈ df, r.week_range = some w)
      ∧ (weeks df).Sorted strLeR
      ∧ (∀ s, s ∈ statusOptions df ↔ ∃ r ∈ df, r.status = s)
      ∧ (∀ (sr : String) (ss : List (Option String)) (sw : String) (r : Row),
          r ∈ filterTable df sr ss sw → r.region ≠ none ∧ r.week_range ≠ none)
      ∧ (∀ (sr sw : String) (r : Row), r ∈ df → r.status = none
          → r.region = some sr → r.week_range = some sw
          → r ∈ filterTable df sr (statusOptions df) sw) := by
  refine ⟨?_, ?_, ?_, ?_, ?_, ?_⟩
  · intro x
    simp [regions, mem_uniqueList, List.mem_filterMap]
  · intro w
    rw [weeks]
    rw [(List.perm_insertionSort _ _).mem_iff, mem_uniqueList, List.mem_filterMap]
  · exact List.sorted_insertionSort strLeR _
  · intro s
    simp [statusOptions, mem_uniqueList, List.mem_map]
  · intro sr ss sw r hr
    have h := (List.mem_filter.1 hr).2
    simp only [decide_eq_true_eq] at h
    refine ⟨?_, ?_⟩
    · rw [h.1]
      exact Option.some_ne_none _
    · rw [h.2.2]
      exact Option.some_ne_none _
  · intro sr sw r hdf hstat hreg hweek
    rw [filterTable, List.mem_filter]
    refine ⟨hdf, ?_⟩
    simp only [decide_eq_true_eq]
    refine ⟨hreg, ?_, hweek⟩
    rw [hstat, statusOptions, mem_uniqueList, List.mem_map]
    exact ⟨r, hdf, hstat⟩

/-- Witness for C10: a concrete row with a missing status passes the filter
when the default (all observed) status options are selected. -/
theorem claim_C10_witness :
    rowNullStatus ∈ filterTable [rowNullStatus] "North"
      (statusOptions [rowNullStatus]) "W1" :=
  (claim_C10_selector_options [rowNullStatus]).2.2.2.2.2 "North" "W1" rowNullStatus
    (by decide) rfl rfl rfl

end Dash

namespace Dash

/-! ### Helper lemmas: the CSV round trip -/

theorem needsQuote_false_iff (s : List Char) :
    needsQuote s = false
      ↔ ∀ c ∈ s, c ≠ ',' ∧ c ≠ '"' ∧ c ≠ '\n' ∧ c ≠ '\r' := by
  simp [needsQuote, not_or, and_assoc]

theorem parseUnq_append (f rest : List Char) (hf : needsQuote f = false)
    (hb : ∀ c ∈ rest.head?, c = ',' ∨ c = '\n') :
    parseUnq (f ++ rest) = (f, rest) := by
  induction f with
  | nil =>
    cases rest with
    | nil => rfl
    | cons c r =>
      have hc := hb c rfl
      simp [parseUnq, hc]
  | cons a f ih =>
    have ha := (needsQuote_false_iff _).1 hf a (List.mem_cons_self _ _)
    have hna : ¬(a = ',' ∨ a = '\n') := by
      rintro (h | h)
      · exact ha.1 h
      · exact ha.2.2.1 h
    have hf' : needsQuote f = false := by
      rw [needsQuote_false_iff]
      intro c hc
      exact (needsQuote_false_iff _).1 hf c (List.mem_cons_of_mem _ hc)
    simp [parseUnq, hna, ih hf']

theorem parseQ_append (f rest : List Char) (hb : ∀ c ∈ rest.head?, c ≠ '"') :
    parseQ (escapeQuotes f ++ ('"' :: rest)) = some (f, rest) := by
  induction f with
  | nil =>
    cases rest with
    | nil => rfl
    | cons d r =>
      have hd : d ≠ '"' := hb d rfl
      simp [escapeQuotes, parseQ, hd]
  | cons a f ih =>
    by_cases ha : a = '"'
    · subst ha
      simp [escapeQuotes, parseQ, ih]
    · have hesc : escapeQuotes (a :: f) = a :: escapeQuotes f := by
        simp [escapeQuotes, ha]
      rw [hesc, List.cons_append, parseQ.eq_def]
      simp [ha, ih]

theorem parseField_append (f rest : List Char)
    (hb : ∀ c ∈ rest.head?, c = ',' ∨ c = '\n') :
    parseField (encodeField f ++ rest) = some (f, rest) := by
  have hbq : ∀ c ∈ rest.head?, c ≠ '"' := by
    intro c hc
    rcases hb c hc with h | h <;> simp [h]
  by_cases hq : needsQuote f
  · rw [encodeField, if_pos hq]
    have hshape : ('"' :: (escapeQuotes f ++ ['"'])) ++ rest
        = '"' :: (escapeQuotes f ++ ('"' :: rest)) := by
      simp
    rw [hshape, parseField]
    simpa using parseQ_append f rest hbq
  · rw [encodeField, if_neg hq]
    have hq' : needsQuote f = false := by
      simpa using hq
    cases f with
    | nil =>
      simp only [List.nil_append]
      cases rest with
      | nil => rfl
      | cons c r =>
        have hc := hb c rfl
        have hc' : c ≠ '"' := hbq c rfl
        simp [parseField, hc', parseUnq, hc]
    | cons a f' =>
      have ha := (needsQuote_false_iff _).1 hq' a (List.mem_cons_self _ _)
      have := parseUnq_append (a :: f') rest hq' hb
      simp only [List.cons_append] at this ⊢
      simp [parseField, ha.2.1, this]

theorem parseRecord_append (rec : List (List Char)) (hne : rec ≠ [])
    (rest : List Char) (fuel : Nat) (hfuel : rec.length ≤ fuel) :
    parseRecord fuel (encodeRecord rec ++ ('\n' :: rest)) = some (rec, rest) := by
  induction rec generalizing fuel with
  | nil => exact absurd rfl hne
  | cons f rec' ih =>
    cases fuel with
    | zero => simp at hfuel
    | succ fuel =>
      cases rec' with
      | nil =>
        have hpf := parseField_append f ('\n' :: rest) (by
          intro c hc
          simp only [List.head?_cons, Option.mem_def, Option.some_inj] at hc
          exact Or.inr hc.symm)
        rw [encodeRecord, parseRecord, hpf]
        simp
      | cons g rec'' =>
        have hshape : encodeRecord (f :: g :: rec'') ++ ('\n' :: rest)
            = encodeField f ++ (',' :: (encodeRecord (g :: rec'') ++ ('\n' :: rest))) := by
          rw [encodeRecord]
          simp
        have hpf := parseField_append f
          (',' :: (encodeRecord (g :: rec'') ++ ('\n' :: rest))) (by
            intro c hc
            simp only [List.head?_cons, Option.mem_def, Option.some_inj] at hc
            exact Or.inl hc.symm)
        rw [hshape, parseRecord, hpf]
        have hrec := ih (List.cons_ne_nil _ _) fuel (by
          simp only [List.length_cons] at hfuel ⊢
          omega)
        simp [hrec]

theorem length_le_encodeRecord (rec : List (List Char)) :
    rec.length ≤ (encodeRecord rec).length + 1 := by
  induction rec with
  | nil => simp [encodeRecord]
  | cons f rec' ih =>
    cases rec' with
    | nil => simp [encodeRecord]
    | cons g t =>
      rw [encodeRecord]
      simp only [List.length_cons, List.length_append] at ih ⊢
      omega

theorem length_le_encodeTable (t : List (List (List Char))) :
    t.length ≤ (encodeTable t).length := by
  induction t with
  | nil => simp [encodeTable]
  | cons r t' ih =>
    rw [encodeTable]
    simp only [List.length_cons, List.length_append] at ih ⊢
    omega

theorem parseTableFuel_encode (t : List (List (List Char)))
    (h : ∀ r ∈ t, r ≠ []) (fuel : Nat) (hfuel : t.length ≤ fuel) :
    parseTableFuel fuel (encodeTable t) = some t := by
  induction t generalizing fuel with
  | nil =>
    cases fuel with
    | zero => rfl
    | succ fuel => rfl
  | cons r t' ih =>
    cases fuel with
    | zero => simp at hfuel
    | succ fuel =>
      rw [encodeTable]
      have hne : encodeRecord r ++ '\n' :: encodeTable t' ≠ [] := by
        intro e
        exact List.cons_ne_nil _ _ (List.append_eq_nil.1 e).2
      rw [parseTableFuel, if_neg hne]
      have hlen : r.length ≤ (encodeRecord r ++ '\n' :: encodeTable t').length + 1 := by
        have h1 := length_le_encodeRecord r
        simp only [List.length_append, List.length_cons]
        omega
      rw [parseRecord_append r (h r (List.mem_cons_self _ _)) (encodeTable t') _ hlen]
      have hrec := ih (fun x hx => h x (List.mem_cons_of_mem _ hx)) fuel (by
        simp only [List.length_cons] at hfuel
        omega)
      simp [hrec]

theorem parseCsv_encodeTable (t : List (List (List Char)))
    (h : ∀ r ∈ t, r ≠ []) : parseCsv (encodeTable t) = some t :=
  parseTableFuel_encode t h _
    (le_trans (length_le_encodeTable t) (Nat.le_succ _))

/-- C4: serialising the filtered table to CSV and re-parsing the text yields
exactly the serialised table — header (the query projection, in order) and
one record of cell texts per filtered row — and the artifact carries the
fixed name "deliveries_filtered.csv" and content type "text/csv". -/
theorem claim_C4_csv_round_trip (rows : List Row) :
    parseCsv (exportCsv rows) = some (csvTable rows)
      ∧ (csvTable rows).head? = some (queryColumns.map String.toList)
      ∧ (csvTable rows).length = rows.length + 1
      ∧ exportFileName = "deliveries_filtered.csv"
      ∧ exportMime = "text/csv" := by
  refine ⟨?_, rfl, by simp [csvTable], rfl, rfl⟩
  apply parseCsv_encodeTable
  intro r hr
  rcases List.mem_cons.1 hr with rfl | hr'
  · simp [queryColumns]
  · rcases List.mem_map.1 hr' with ⟨row, _, rfl⟩
    simp [rowCells]

end Dash
